import Mathlib

/-!
Shallow embedding of the slide-video editor's core (clamping of AI-detected
element rects, subtitle chunking and progress-to-chunk mapping, the per-frame
animation evaluator, layout for the aspect modes, subtitle rendering decisions,
and the text-to-speech input guard), translated from
`src/services/geminiService.ts` and `src/services/videoRenderer.ts`
(with its companion text utilities), together with theorems checking the
specification's statements against these definitions.

Numbers are modelled as exact rationals (`ℚ`); the single transcendental
quantity (the highlight brightness pulse, `Math.sin`) is modelled over `ℝ`.
-/

namespace SlideEditor

/-- Animation kinds of `AnimationType` in `src/types.ts`:
`'none' | 'fadeIn' | 'zoomIn' | 'highlight' | 'slideUp'`. -/
inductive AnimationType where
  | none
  | fadeIn
  | zoomIn
  | highlight
  | slideUp
deriving DecidableEq, Repr

/-- Percentage rect `{x, y, w, h}` of a `VisualElement` (`src/types.ts`). -/
structure Rect where
  x : ℚ
  y : ℚ
  w : ℚ
  h : ℚ
deriving DecidableEq, Repr

/-- The fields of `VisualElement` (`src/types.ts`) that the renderer reads
(`id` is an opaque string and is omitted). `startTime` is a fraction of the
slide duration, `duration` is in seconds. -/
structure VisualElement where
  label : String
  rect : Rect
  animation : AnimationType
  startTime : ℚ
  duration : ℚ
deriving DecidableEq, Repr

/- ### Ingestion of AI-detected elements
From `generateSlideAnimations` in `src/services/geminiService.ts`
(lines 147-167). -/

/-- Raw rect fields of one element of the AI response; `Option.none` models a
missing (`undefined`/`null`) field, handled by `?? default` in the source. -/
structure RawRect where
  x : Option ℚ
  y : Option ℚ
  w : Option ℚ
  h : Option ℚ
deriving DecidableEq, Repr

/-- Rect coercion performed for each mapped element in
`generateSlideAnimations`:
`x = Number(el.rect.x ?? 0)`, `w = Number(el.rect.w ?? 20)` (same for y, h) and
then
`x: Math.max(0, Math.min(100, x))`,
`w: Math.max(1, Math.min(100 - Math.max(0, x), w))` (same for y, h).
Note the width clamp uses the incoming `x`, not the already clamped one. -/
def ingestRect (r : RawRect) : Rect :=
  let x := r.x.getD 0
  let y := r.y.getD 0
  let w := r.w.getD 20
  let h := r.h.getD 20
  { x := max 0 (min 100 x)
  , y := max 0 (min 100 y)
  , w := max 1 (min (100 - max 0 x) w)
  , h := max 1 (min (100 - max 0 y) h) }

/-- The rects stored for a full AI response: `elements.map(...)` applies
`ingestRect` to each surviving element of the response. -/
def ingestRects (rs : List RawRect) : List Rect :=
  rs.map ingestRect

/- ### Subtitle chunking
From `splitTextIntoChunks` and `getChunkIndexByCharacterCount` in the text
utilities next to `src/services/videoRenderer.ts`. -/

/-- Leading- and trailing-whitespace removal on a character list, modelling
JavaScript `String.prototype.trim`. -/
def trimChars (cs : List Char) : List Char :=
  ((cs.dropWhile Char.isWhitespace).reverse.dropWhile Char.isWhitespace).reverse

/-- Trimmed copy of a string (`line.trim()` in the source). -/
def trimString (s : String) : String :=
  String.mk (trimChars s.toList)

/-- Splitting a character list at every `'\n'`, modelling
`text.split('\n')` (the empty text yields one empty segment, as in
JavaScript). -/
def splitOnNewline : List Char → List (List Char)
  | [] => [[]]
  | c :: rest =>
    let r := splitOnNewline rest
    if c = '\n' then [] :: r
    else
      match r with
      | [] => [[c]]
      | l :: ls => (c :: l) :: ls

/-- Source: `splitTextIntoChunks(text)`: if the text is falsy return `[]`,
else split strictly on newlines, trim each line, and drop empty lines. -/
def splitTextIntoChunks (text : String) : List String :=
  if text = "" then []
  else
    (((splitOnNewline text.toList).map (fun l => String.mk (trimChars l))).filter
      (fun l => 0 < l.length))

/-- Loop of `getChunkIndexByCharacterCount`: walking the chunk lengths with an
accumulated running count, returning the offset of the first chunk where
`runningCount >= targetCharIndex` (`Option.none` when the walk falls through,
which the caller turns into the last index). -/
def chunkSearch : List ℕ → ℚ → ℕ → Option ℕ
  | [], _, _ => Option.none
  | l :: rest, target, running =>
    if target ≤ ((running + l : ℕ) : ℚ) then Option.some 0
    else (chunkSearch rest target (running + l)).map (· + 1)

/-- Source: `getChunkIndexByCharacterCount(chunks, progress)`:
empty list → 0; `progress >= 1` → last index; `progress <= 0` → 0; otherwise
the walk of `chunkSearch` against
`target = progress * totalLength` (where `totalLength` is the sum of the chunk
character lengths), with the last index as the fall-through result. -/
def getChunkIndexByCharacterCount (chunks : List String) (progress : ℚ) : ℕ :=
  if chunks.length = 0 then 0
  else if 1 ≤ progress then chunks.length - 1
  else if progress ≤ 0 then 0
  else
    match chunkSearch (chunks.map String.length)
        (progress * ((chunks.map String.length).sum : ℚ)) 0 with
    | Option.some i => i
    | Option.none => chunks.length - 1

/-- Cumulative character count of the chunks up to and including index `i`:
the value of `runningCount` after the loop iteration for chunk `i`. -/
def cumulativeLen (chunks : List String) (i : ℕ) : ℕ :=
  ((chunks.map String.length).take (i + 1)).sum

/- ### Animation evaluator
From the per-element drawing in `exportVideo`, `src/services/videoRenderer.ts`
lines 168-205. `durationMs` is the slide duration in milliseconds (`duration`
in the source), `imgH` the height of the letterboxed base image. -/

/-- Source line 172:
`const relativeTime = Math.max(0, (progress - el.startTime) * (duration / 1000))`. -/
def relativeTimeOf (el : VisualElement) (p durationMs : ℚ) : ℚ :=
  max 0 ((p - el.startTime) * (durationMs / 1000))

/-- Source line 173:
`const animProgress = Math.min(Math.max(relativeTime / el.duration, 0), 1)`. -/
def animProgressOf (el : VisualElement) (p durationMs : ℚ) : ℚ :=
  min (max (relativeTimeOf el p durationMs / el.duration) 0) 1

/-- Drawing parameters of one element overlay: whether the overlay is drawn at
all (`isActive`), the `globalAlpha` it is drawn with, the vertical translation
and the scale applied to the context. The brightness filter is modelled
separately by `brightnessPctOf` because it is the one transcendental
quantity. -/
structure ElemRender where
  drawn : Bool
  alpha : ℚ
  offsetY : ℚ
  zoom : ℚ
deriving DecidableEq, Repr

/-- Per-element overlay evaluation (source lines 169-204): an element is
skipped while `progress < el.startTime` (`isActive` false); otherwise
`fadeIn` sets `globalAlpha = animProgress`, `zoomIn` scales by
`0.8 + animProgress * 0.2` about the element centre with
`globalAlpha = animProgress`, `highlight` only sets the brightness filter, and
`slideUp` translates by `(1 - animProgress) * (imgH * 0.05)` with
`globalAlpha = animProgress`. -/
def renderElement (el : VisualElement) (p durationMs imgH : ℚ) : ElemRender :=
  if p < el.startTime then ⟨false, 1, 0, 1⟩
  else
    let a := animProgressOf el p durationMs
    match el.animation with
    | AnimationType.none => ⟨true, 1, 0, 1⟩
    | AnimationType.fadeIn => ⟨true, a, 0, 1⟩
    | AnimationType.zoomIn => ⟨true, a, 0, 0.8 + a * 0.2⟩
    | AnimationType.highlight => ⟨true, 1, 0, 1⟩
    | AnimationType.slideUp => ⟨true, a, (1 - a) * (imgH * 0.05), 1⟩

/-- Effective opacity of the element region contributed by the overlay: a
skipped overlay contributes nothing (opacity 0). -/
def effAlpha (r : ElemRender) : ℚ :=
  if r.drawn then r.alpha else 0

/-- Brightness filter percentage applied while drawing the overlay (source
lines 195-197): for an active `highlight` element
`ctx.filter = brightness((100 + Math.sin(animProgress * PI) * 50)%)`; in every
other case the context keeps its default filter (100%, identity), so the
element region shows the already drawn base image unchanged. -/
noncomputable def brightnessPctOf (el : VisualElement) (p durationMs : ℚ) : ℝ :=
  if el.startTime ≤ p ∧ el.animation = AnimationType.highlight then
    100 + Real.sin ((animProgressOf el p durationMs : ℝ) * Real.pi) * 50
  else 100

/-- Height in canvas pixels of the destination rectangle of an element
(source line 179: `const elH = (el.rect.h / 100) * imgH`). -/
def elementHeightOn (el : VisualElement) (imgH : ℚ) : ℚ :=
  el.rect.h / 100 * imgH

/- ### Layout engine
From the beginning of `exportVideo` (canvas dimensions, lines 34-64), the
image-area split (lines 95-100) and the subtitle anchor (lines 223-226). -/

/-- Aspect modes (`AspectRatio` in `src/types.ts`). -/
inductive AspectMode where
  | video16x9
  | square1x1
  | portrait9x16
  | original
  | top
  | bottom
deriving DecidableEq, Repr

/-- Canvas dimensions chosen by `exportVideo`: for `Original` with at least one
slide (`firstSlideDims` holds the first slide image's natural pixel size) each
dimension is rounded down to even and, if either exceeds 1920, downscaled by
`min(1920/w, 1920/h)` with floor and a second rounding to even; split modes
(`Top`, `Bottom`) force `1920 × 1080`; every other mode keeps the requested
target dimensions. -/
def exportCanvasDims (mode : AspectMode) (targetW targetH : ℕ)
    (firstSlideDims : Option (ℕ × ℕ)) : ℕ × ℕ :=
  match mode, firstSlideDims with
  | AspectMode.original, Option.some (iw, ih) =>
    let w := if iw % 2 = 0 then iw else iw - 1
    let h := if ih % 2 = 0 then ih else ih - 1
    if 1920 < w ∨ 1920 < h then
      let scale : ℚ := min (1920 / (w : ℚ)) (1920 / (h : ℚ))
      let w' := Nat.floor ((w : ℚ) * scale)
      let h' := Nat.floor ((h : ℚ) * scale)
      ((if w' % 2 = 0 then w' else w' - 1), (if h' % 2 = 0 then h' else h' - 1))
    else (w, h)
  | AspectMode.original, Option.none => (targetW, targetH)
  | AspectMode.top, _ => (1920, 1080)
  | AspectMode.bottom, _ => (1920, 1080)
  | _, _ => (targetW, targetH)

/-- A sub-rectangle of the canvas. -/
structure Area where
  x : ℚ
  y : ℚ
  w : ℚ
  h : ℚ
deriving DecidableEq, Repr

/-- Image area of the canvas (source lines 95-100): the top layout reserves the
top 20% of the height for subtitles and gives the image the bottom 80%; the
bottom layout gives the image the top 80%; otherwise the image gets the whole
canvas. -/
def imageArea (mode : AspectMode) (width height : ℚ) : Area :=
  if mode = AspectMode.top then ⟨0, height * 0.2, width, height * 0.8⟩
  else if mode = AspectMode.bottom then ⟨0, 0, width, height * 0.8⟩
  else ⟨0, 0, width, height⟩

/-- Vertical anchor of the subtitle block (source lines 223-226):
`height * (verticalPosition / 100)`, overridden to `height * 0.1` for the top
layout and `height * 0.9` for the bottom layout. -/
def subtitleTextY (mode : AspectMode) (height verticalPosition : ℚ) : ℚ :=
  let base := height * (verticalPosition / 100)
  if mode = AspectMode.top then height * 0.1
  else if mode = AspectMode.bottom then height * 0.9
  else base

/- ### Subtitle source selection and rendering decisions
From `exportVideo` lines 208-275. -/

/-- The slide fields the compositor reads (`Slide` in `src/types.ts`):
`hasAudio` models `slide.audioData` being non-null. -/
structure Slide where
  script : String
  subtitle : String
  hasAudio : Bool
  visualElements : List VisualElement

/-- Subtitle text resolved for a frame (source lines 209-213): start from the
stored static subtitle and replace it with the time-synced chunk when the slide
has narration audio, a non-empty script and a non-empty chunk list. -/
def currentSubtitleFor (slide : Slide) (progress : ℚ) : String :=
  let scriptText := slide.script
  let textChunks := splitTextIntoChunks scriptText
  if slide.hasAudio = true ∧ scriptText ≠ "" ∧ 0 < textChunks.length then
    textChunks.getD (getChunkIndexByCharacterCount textChunks progress) ""
  else slide.subtitle

/-- The subtitle-style fields the renderer reads (`SubtitleStyle` in
`src/types.ts`). -/
structure SubtitleStyle where
  fontSize : ℚ
  fontFamily : String
  color : String
  backgroundColor : String
  backgroundOpacity : ℚ
  verticalPosition : ℚ
  highlightColor : String

/-- Source line 247: the background rectangle behind the subtitle block is
filled exactly when `subtitleStyle.backgroundOpacity > 0`. -/
def backgroundRectDrawn (style : SubtitleStyle) : Bool :=
  0 < style.backgroundOpacity

/-- Source line 262: the black outline stroke (with shadow) behind each text
run is drawn exactly when `subtitleStyle.backgroundOpacity < 0.3`. -/
def outlineStrokeDrawn (style : SubtitleStyle) : Bool :=
  style.backgroundOpacity < 0.3

/-- Geometry of the background rectangle (source lines 245-254): the measured
block width plus `padding` on each side, one line height `fontSize * 1.2` plus
`padding`, centred on the text anchor, with `padding = fontSize * 0.5`. -/
def backgroundRectArea (fontSize blockX textY totalWidth : ℚ) : Area :=
  let textHeight := fontSize * 1.2
  let padding := fontSize * 0.5
  ⟨blockX - padding, textY - textHeight / 2 - padding / 2,
    totalWidth + padding * 2, textHeight + padding⟩

/- ### Text-to-speech input guard
From `generateSpeech` in `src/services/geminiService.ts` lines 119-135. -/

/-- Whether one character list starts with another (modelling
`String.prototype.startsWith` on the underlying characters). -/
def startsWithSeq : List Char → List Char → Bool
  | [], _ => true
  | _ :: _, [] => false
  | a :: as, b :: bs => a == b && startsWithSeq as bs

/-- Whether a character list contains another as a contiguous subsequence
(modelling `String.prototype.includes`). -/
def containsSeq (needle : List Char) : List Char → Bool
  | [] => needle.isEmpty
  | c :: rest => startsWithSeq needle (c :: rest) || containsSeq needle rest

/-- Source line 120: `const cleanText = text.replace(/\*/g, '').trim()` —
every `'*'` is removed, then the result is trimmed. -/
def cleanSpeechText (text : String) : String :=
  String.mk (trimChars (text.toList.filter (fun c => c != '*')))

/-- Observable behaviour of `generateSpeech` up to its network call: the guard
on lines 121-123 returns `null` without any request when the cleaned text is
empty, contains `"분석 중"` or starts with `"오류"`; otherwise a request
carrying the cleaned text is sent (`Option.some` is the request payload,
`Option.none` means no request was issued and `null` was returned). -/
def generateSpeech (text : String) : Option String :=
  let cleanText := cleanSpeechText text
  if cleanText = "" ∨ containsSeq "분석 중".toList cleanText.toList = true ∨
      startsWithSeq "오류".toList cleanText.toList = true then
    Option.none
  else Option.some cleanText

/- ### Concrete fixtures used in the worked examples -/

/-- Element of the spec's worked animation example: `fadeIn` with
`startTime = 0.2` and `duration = 1.0` s. -/
def fadeInExample : VisualElement :=
  ⟨"Example", ⟨10, 10, 20, 20⟩, AnimationType.fadeIn, 0.2, 1⟩

/-- Highlight element with `startTime = 0` and `duration = 1` s, used to
evaluate the brightness formula at `animProgress = 1/2`. -/
def highlightExample : VisualElement :=
  ⟨"Highlight", ⟨0, 0, 50, 50⟩, AnimationType.highlight, 0, 1⟩

/-- SlideUp element whose rect height is 50 (half the image height), with
`startTime = 0` and `duration = 1` s. -/
def slideUpExample : VisualElement :=
  ⟨"SlideUp", ⟨0, 0, 100, 50⟩, AnimationType.slideUp, 0, 1⟩

/-! ## Helper lemmas -/

theorem chunkSearch_lt_length {lens : List ℕ} {t : ℚ} {r i : ℕ}
    (h : chunkSearch lens t r = Option.some i) : i < lens.length := by
  induction lens generalizing r i with
  | nil => simp [chunkSearch] at h
  | cons l rest ih =>
    rw [chunkSearch] at h
    split_ifs at h with hc
    · simp only [Option.some.injEq] at h
      simp only [List.length_cons]
      omega
    · rcases hs : chunkSearch rest t (r + l) with _ | j
      · rw [hs] at h; simp at h
      · rw [hs] at h
        simp only [Option.map_some', Option.some.injEq] at h
        have := ih hs
        simp only [List.length_cons]
        omega

theorem chunkSearch_isSome {lens : List ℕ} (hne : lens ≠ []) {t : ℚ} {r : ℕ}
    (hle : t ≤ ((r + lens.sum : ℕ) : ℚ)) :
    ∃ i, chunkSearch lens t r = Option.some i := by
  induction lens generalizing r with
  | nil => exact absurd rfl hne
  | cons l rest ih =>
    rw [chunkSearch]
    split_ifs with hc
    · exact ⟨0, rfl⟩
    · cases rest with
      | nil =>
        exfalso
        apply hc
        push_cast at hle ⊢
        simp only [List.sum_cons, List.sum_nil, List.map_cons, List.map_nil, add_zero] at hle
        linarith
      | cons l₂ rest₂ =>
        have hle' : t ≤ (((r + l) + (l₂ :: rest₂).sum : ℕ) : ℚ) := by
          push_cast at hle ⊢
          simp only [List.map_cons, List.sum_cons] at hle ⊢
          linarith
        obtain ⟨i, hi⟩ := ih (by simp) hle'
        exact ⟨i + 1, by rw [hi]; rfl⟩

theorem chunkSearch_mono {t₁ t₂ : ℚ} (h12 : t₁ ≤ t₂) :
    ∀ {lens : List ℕ} {r i₂ : ℕ}, chunkSearch lens t₂ r = Option.some i₂ →
      ∃ i₁, chunkSearch lens t₁ r = Option.some i₁ ∧ i₁ ≤ i₂ := by
  intro lens
  induction lens with
  | nil => intro r i₂ h; simp [chunkSearch] at h
  | cons l rest ih =>
    intro r i₂ h
    rw [chunkSearch] at h ⊢
    by_cases hc₂ : t₂ ≤ ((r + l : ℕ) : ℚ)
    · rw [if_pos hc₂] at h
      simp only [Option.some.injEq] at h
      rw [if_pos (le_trans h12 hc₂)]
      exact ⟨0, rfl, by omega⟩
    · rw [if_neg hc₂] at h
      by_cases hc₁ : t₁ ≤ ((r + l : ℕ) : ℚ)
      · rw [if_pos hc₁]
        exact ⟨0, rfl, Nat.zero_le _⟩
      · rw [if_neg hc₁]
        rcases hs : chunkSearch rest t₂ (r + l) with _ | j
        · rw [hs] at h; simp at h
        · rw [hs] at h
          simp only [Option.map_some', Option.some.injEq] at h
          obtain ⟨i₁, hi₁, hle⟩ := ih hs
          exact ⟨i₁ + 1, by rw [hi₁]; rfl, by omega⟩

theorem chunkSearch_first {lens : List ℕ} {t : ℚ} {r i : ℕ}
    (h : chunkSearch lens t r = Option.some i) :
    t ≤ ((r + (lens.take (i + 1)).sum : ℕ) : ℚ) ∧
      ∀ j < i, ¬ t ≤ ((r + (lens.take (j + 1)).sum : ℕ) : ℚ) := by
  induction lens generalizing r i with
  | nil => simp [chunkSearch] at h
  | cons l rest ih =>
    rw [chunkSearch] at h
    split_ifs at h with hc
    · simp only [Option.some.injEq] at h
      subst h
      refine ⟨by simpa using hc, ?_⟩
      intro j hj
      omega
    · rcases hs : chunkSearch rest t (r + l) with _ | j
      · rw [hs] at h; simp at h
      · rw [hs] at h
        simp only [Option.map_some', Option.some.injEq] at h
        subst h
        obtain ⟨h₁, h₂⟩ := ih hs
        constructor
        · rw [List.take_succ_cons, List.sum_cons]
          push_cast at h₁ ⊢
          linarith
        · intro k hk
          cases k with
          | zero =>
            simpa using hc
          | succ k' =>
            have hk' := h₂ k' (by omega)
            rw [List.take_succ_cons, List.sum_cons]
            push_cast at hk' ⊢
            linarith

theorem chunkIndex_empty (p : ℚ) : getChunkIndexByCharacterCount [] p = 0 := by
  simp [getChunkIndexByCharacterCount]

theorem chunkIndex_nonpos (chunks : List String) {p : ℚ} (hp : p ≤ 0) :
    getChunkIndexByCharacterCount chunks p = 0 := by
  rw [getChunkIndexByCharacterCount]
  split_ifs with h₀ h₁
  · rfl
  · linarith
  · rfl

theorem chunkIndex_ge_one (chunks : List String) {p : ℚ} (hp : 1 ≤ p) :
    getChunkIndexByCharacterCount chunks p = chunks.length - 1 := by
  rw [getChunkIndexByCharacterCount]
  split_ifs with h₀
  · omega
  · rfl

theorem chunkIndex_le_last (chunks : List String) (p : ℚ) :
    getChunkIndexByCharacterCount chunks p ≤ chunks.length - 1 := by
  rw [getChunkIndexByCharacterCount]
  split_ifs with h₀ h₁ h₂
  · omega
  · exact le_refl _
  · omega
  · rcases hs : chunkSearch (chunks.map String.length)
        (p * ((chunks.map String.length).sum : ℚ)) 0 with _ | i
    · simp only [hs]
      exact le_refl _
    · simp only [hs]
      have := chunkSearch_lt_length hs
      simp only [List.length_map] at this
      omega

theorem chunkIndex_lt_length (chunks : List String) (p : ℚ) (hne : chunks ≠ []) :
    getChunkIndexByCharacterCount chunks p < chunks.length := by
  have h₁ := chunkIndex_le_last chunks p
  have h₂ : chunks.length ≠ 0 := by
    simpa using fun h => hne (List.length_eq_zero.mp h)
  omega

theorem chunkIndex_value_mid {chunks : List String} {p : ℚ} (hp0 : 0 < p) (hp1 : p < 1)
    (hlen : chunks.length ≠ 0) {i : ℕ}
    (hi : chunkSearch (chunks.map String.length)
      (p * ((chunks.map String.length).sum : ℚ)) 0 = Option.some i) :
    getChunkIndexByCharacterCount chunks p = i := by
  rw [getChunkIndexByCharacterCount]
  rw [if_neg hlen, if_neg (by linarith : ¬ (1 : ℚ) ≤ p), if_neg (by linarith : ¬ p ≤ 0)]
  simp only [hi]

theorem chunkIndex_mid (chunks : List String) {p : ℚ} (hp0 : 0 < p) (hp1 : p < 1)
    (hne : chunks ≠ []) :
    p * (((chunks.map String.length).sum : ℕ) : ℚ) ≤
        (cumulativeLen chunks (getChunkIndexByCharacterCount chunks p) : ℚ) ∧
      ∀ j < getChunkIndexByCharacterCount chunks p,
        (cumulativeLen chunks j : ℚ) < p * (((chunks.map String.length).sum : ℕ) : ℚ) := by
  have hlen : chunks.length ≠ 0 := by
    simpa using fun h => hne (List.length_eq_zero.mp h)
  have hmapne : chunks.map String.length ≠ [] := by
    simpa using hne
  have hsum0 : (0 : ℚ) ≤ (((chunks.map String.length).sum : ℕ) : ℚ) := Nat.cast_nonneg _
  have hle : p * (((chunks.map String.length).sum : ℕ) : ℚ) ≤
      ((0 + (chunks.map String.length).sum : ℕ) : ℚ) := by
    have h1 : p * (((chunks.map String.length).sum : ℕ) : ℚ) ≤
        1 * (((chunks.map String.length).sum : ℕ) : ℚ) :=
      mul_le_mul_of_nonneg_right (le_of_lt hp1) hsum0
    simpa using h1
  obtain ⟨i, hi⟩ := chunkSearch_isSome hmapne hle
  rw [chunkIndex_value_mid hp0 hp1 hlen hi]
  obtain ⟨h₁, h₂⟩ := chunkSearch_first hi
  constructor
  · unfold cumulativeLen
    push_cast at h₁ ⊢
    linarith
  · intro j hj
    have := h₂ j hj
    rw [not_le] at this
    unfold cumulativeLen
    push_cast at this ⊢
    linarith

theorem chunkIndex_mono (chunks : List String) {p₁ p₂ : ℚ} (h12 : p₁ ≤ p₂) :
    getChunkIndexByCharacterCount chunks p₁ ≤ getChunkIndexByCharacterCount chunks p₂ := by
  by_cases h₂ : 1 ≤ p₂
  · rw [chunkIndex_ge_one chunks h₂]
    exact chunkIndex_le_last chunks p₁
  · by_cases h₁ : p₁ ≤ 0
    · rw [chunkIndex_nonpos chunks h₁]
      exact Nat.zero_le _
    · have hp₁0 : 0 < p₁ := not_le.mp h₁
      have hp₂1 : p₂ < 1 := not_le.mp h₂
      have hp₁1 : p₁ < 1 := lt_of_le_of_lt h12 hp₂1
      have hp₂0 : 0 < p₂ := lt_of_lt_of_le hp₁0 h12
      by_cases hlen : chunks.length = 0
      · rw [List.length_eq_zero.mp hlen]
        simp [chunkIndex_empty]
      · have htle : p₁ * ((chunks.map String.length).sum : ℚ) ≤
            p₂ * ((chunks.map String.length).sum : ℚ) :=
          mul_le_mul_of_nonneg_right h12 (Nat.cast_nonneg _)
        rcases hs₂ : chunkSearch (chunks.map String.length)
            (p₂ * ((chunks.map String.length).sum : ℚ)) 0 with _ | i₂
        · have hv₂ : getChunkIndexByCharacterCount chunks p₂ = chunks.length - 1 := by
            rw [getChunkIndexByCharacterCount]
            rw [if_neg hlen, if_neg (by linarith : ¬ (1 : ℚ) ≤ p₂),
              if_neg (by linarith : ¬ p₂ ≤ 0)]
            simp only [hs₂]
          rw [hv₂]
          exact chunkIndex_le_last chunks p₁
        · obtain ⟨i₁, hi₁, hle⟩ := chunkSearch_mono htle hs₂
          rw [chunkIndex_value_mid hp₁0 hp₁1 hlen hi₁,
            chunkIndex_value_mid hp₂0 hp₂1 hlen hs₂]
          exact hle

theorem renderElement_inactive (el : VisualElement) {p : ℚ} (hp : p < el.startTime)
    (durationMs imgH : ℚ) : renderElement el p durationMs imgH = ⟨false, 1, 0, 1⟩ := by
  simp only [renderElement, if_pos hp]

theorem renderElement_fadeIn {el : VisualElement} (ha : el.animation = AnimationType.fadeIn)
    {p : ℚ} (hp : ¬ p < el.startTime) (durationMs imgH : ℚ) :
    renderElement el p durationMs imgH =
      ⟨true, animProgressOf el p durationMs, 0, 1⟩ := by
  simp only [renderElement, if_neg hp, ha]

theorem renderElement_slideUp {el : VisualElement} (ha : el.animation = AnimationType.slideUp)
    {p : ℚ} (hp : ¬ p < el.startTime) (durationMs imgH : ℚ) :
    renderElement el p durationMs imgH =
      ⟨true, animProgressOf el p durationMs,
        (1 - animProgressOf el p durationMs) * (imgH * 0.05), 1⟩ := by
  simp only [renderElement, if_neg hp, ha]

theorem renderElement_highlight {el : VisualElement} (ha : el.animation = AnimationType.highlight)
    {p : ℚ} (hp : ¬ p < el.startTime) (durationMs imgH : ℚ) :
    renderElement el p durationMs imgH = ⟨true, 1, 0, 1⟩ := by
  simp only [renderElement, if_neg hp, ha]

theorem animProgress_nonneg (el : VisualElement) (p durationMs : ℚ) :
    0 ≤ animProgressOf el p durationMs :=
  le_min (le_max_right _ _) zero_le_one

theorem animProgress_le_one (el : VisualElement) (p durationMs : ℚ) :
    animProgressOf el p durationMs ≤ 1 :=
  min_le_right _ _

theorem animProgress_of_one_le {el : VisualElement} {p durationMs : ℚ}
    (h : 1 ≤ relativeTimeOf el p durationMs / el.duration) :
    animProgressOf el p durationMs = 1 := by
  unfold animProgressOf
  rw [max_eq_left (le_trans zero_le_one h), min_eq_right h]

theorem animProgress_saturated {el : VisualElement} {p q durationMs : ℚ}
    (hD : 0 ≤ durationMs) (hd : 0 < el.duration) (hpq : p ≤ q)
    (h1 : animProgressOf el p durationMs = 1) :
    animProgressOf el q durationMs = 1 := by
  have hrt : relativeTimeOf el p durationMs ≤ relativeTimeOf el q durationMs := by
    unfold relativeTimeOf
    refine max_le_max (le_refl 0) ?_
    have hD10 : (0 : ℚ) ≤ durationMs / 1000 := by positivity
    exact mul_le_mul_of_nonneg_right (by linarith) hD10
  have h1' : 1 ≤ relativeTimeOf el p durationMs / el.duration := by
    by_contra hlt
    push_neg at hlt
    have hless : min (max (relativeTimeOf el p durationMs / el.duration) 0) 1 < 1 :=
      lt_of_le_of_lt (min_le_left _ _) (max_lt hlt one_pos)
    rw [animProgressOf] at h1
    linarith [h1.le, h1.ge, hless]
  exact animProgress_of_one_le
    (le_trans h1' ((div_le_div_iff_of_pos_right hd).mpr hrt))

/-! ## Claim theorems -/

/-- Claim C2: `getChunkIndexByCharacterCount` computes `total` as the sum of
chunk character lengths and `target = progress × total`, walks the chunks
accumulating lengths and returns the first index whose cumulative length
reaches `target`; `progress ≤ 0` gives index 0, `progress ≥ 1` the last index
and the empty chunk list index 0; concretely on `["ab", "abcdefgh"]` progress
`0.15` gives index 0 and progress `0.5` gives index 1. -/
theorem chunkIndex_character_count_spec :
    (∀ (chunks : List String) (p : ℚ),
      (chunks = [] → getChunkIndexByCharacterCount chunks p = 0) ∧
      (p ≤ 0 → getChunkIndexByCharacterCount chunks p = 0) ∧
      (1 ≤ p → getChunkIndexByCharacterCount chunks p = chunks.length - 1) ∧
      (0 < p → p < 1 → chunks ≠ [] →
        p * (((chunks.map String.length).sum : ℕ) : ℚ) ≤
            (cumulativeLen chunks (getChunkIndexByCharacterCount chunks p) : ℚ) ∧
          ∀ j < getChunkIndexByCharacterCount chunks p,
            (cumulativeLen chunks j : ℚ) <
              p * (((chunks.map String.length).sum : ℕ) : ℚ))) ∧
    getChunkIndexByCharacterCount ["ab", "abcdefgh"] 0.15 = 0 ∧
    getChunkIndexByCharacterCount ["ab", "abcdefgh"] 0.5 = 1 := by
  refine ⟨?_,
    by norm_num [getChunkIndexByCharacterCount, chunkSearch,
      show "ab".length = 2 from rfl, show "abcdefgh".length = 8 from rfl],
    by norm_num [getChunkIndexByCharacterCount, chunkSearch,
      show "ab".length = 2 from rfl, show "abcdefgh".length = 8 from rfl]⟩
  intro chunks p
  exact ⟨fun h => h ▸ chunkIndex_empty p,
    fun hp => chunkIndex_nonpos chunks hp,
    fun hp => chunkIndex_ge_one chunks hp,
    fun hp0 hp1 hne => chunkIndex_mid chunks hp0 hp1 hne⟩

/-- Witness for C2 at concrete inputs: the empty list, a negative progress, a
progress above 1, and the mid-range progress `0.5` on `["ab", "abcdefgh"]`. -/
theorem chunkIndex_character_count_spec_witness :
    getChunkIndexByCharacterCount [] (1/2 : ℚ) = 0 ∧
    getChunkIndexByCharacterCount ["ab", "abcdefgh"] (-1 : ℚ) = 0 ∧
    getChunkIndexByCharacterCount ["ab", "abcdefgh"] (2 : ℚ) =
      (["ab", "abcdefgh"] : List String).length - 1 ∧
    ((1/2 : ℚ) * (((["ab", "abcdefgh"].map String.length).sum : ℕ) : ℚ) ≤
        (cumulativeLen ["ab", "abcdefgh"]
          (getChunkIndexByCharacterCount ["ab", "abcdefgh"] (1/2 : ℚ)) : ℚ) ∧
      ∀ j < getChunkIndexByCharacterCount ["ab", "abcdefgh"] (1/2 : ℚ),
        (cumulativeLen ["ab", "abcdefgh"] j : ℚ) <
          (1/2 : ℚ) * (((["ab", "abcdefgh"].map String.length).sum : ℕ) : ℚ)) :=
  ⟨(chunkIndex_character_count_spec.1 [] (1/2)).1 rfl,
   (chunkIndex_character_count_spec.1 ["ab", "abcdefgh"] (-1)).2.1 (by norm_num),
   (chunkIndex_character_count_spec.1 ["ab", "abcdefgh"] 2).2.2.1 (by norm_num),
   (chunkIndex_character_count_spec.1 ["ab", "abcdefgh"] (1/2)).2.2.2
     (by norm_num) (by norm_num) (by simp)⟩

/-- Claim C3: for a fixed chunk list the progress→chunk-index mapping is
monotonically non-decreasing over `progress ∈ [0,1]`, and for every progress it
returns a valid index (`< length` for a non-empty list; 0 for the empty
list). -/
theorem chunkIndex_monotone_and_valid :
    (∀ (chunks : List String) (p₁ p₂ : ℚ), 0 ≤ p₁ → p₁ ≤ p₂ → p₂ ≤ 1 →
      getChunkIndexByCharacterCount chunks p₁ ≤
        getChunkIndexByCharacterCount chunks p₂) ∧
    (∀ (chunks : List String) (p : ℚ), chunks ≠ [] →
      getChunkIndexByCharacterCount chunks p < chunks.length) ∧
    ∀ p : ℚ, getChunkIndexByCharacterCount [] p = 0 :=
  ⟨fun chunks _ _ _ h12 _ => chunkIndex_mono chunks h12,
   fun chunks p hne => chunkIndex_lt_length chunks p hne,
   chunkIndex_empty⟩

/-- Witness for C3 at the concrete chunk list `["ab", "abcdefgh"]` and the
progress pair `0.15 ≤ 0.5`. -/
theorem chunkIndex_monotone_and_valid_witness :
    getChunkIndexByCharacterCount ["ab", "abcdefgh"] (0.15 : ℚ) ≤
        getChunkIndexByCharacterCount ["ab", "abcdefgh"] (0.5 : ℚ) ∧
    getChunkIndexByCharacterCount ["ab", "abcdefgh"] (0.5 : ℚ) <
      (["ab", "abcdefgh"] : List String).length :=
  ⟨chunkIndex_monotone_and_valid.1 ["ab", "abcdefgh"] 0.15 0.5
     (by norm_num) (by norm_num) (by norm_num),
   chunkIndex_monotone_and_valid.2.1 ["ab", "abcdefgh"] 0.5 (by simp)⟩

/-- Claim C1 fails as stated: for the AI-reported rect `x = 150` (inside the
range `[-50, 150]` the claim quantifies over) with `w = 20`, the stored rect
has `x = 100` and `w = 1`, so `x + w = 101 > 100`: the stored rect exceeds the
right image edge, because the width clamp `max(1, min(100 - max(0, x), w))`
forces the width up to 1 after `100 - max(0, x)` has become negative. -/
theorem ingestRect_counterexample :
    (ingestRect ⟨Option.some 150, Option.some 0, Option.some 20, Option.some 20⟩).x = 100 ∧
    (ingestRect ⟨Option.some 150, Option.some 0, Option.some 20, Option.some 20⟩).w = 1 ∧
    ¬ ((ingestRect ⟨Option.some 150, Option.some 0, Option.some 20, Option.some 20⟩).x +
        (ingestRect ⟨Option.some 150, Option.some 0, Option.some 20, Option.some 20⟩).w
        ≤ 100) := by
  norm_num [ingestRect]

/-- Claim C1 (amended): every stored rect satisfies `0 ≤ x ≤ 100` and `w ≥ 1`
(symmetrically `0 ≤ y ≤ 100`, `h ≥ 1`), missing `w`/`h` default to the fixed
size 20 before clamping, out-of-range coordinates are clamped into `[0, 100]`,
and `x + w ≤ 100` holds whenever the incoming `x` is at most 99 (symmetrically
for `y + h`); for incoming `x > 99` the stored `x + w` can exceed 100 (by up to
1) because the width is clamped up to the minimum 1 (see the
counterexample). -/
theorem ingestRect_bounds (r : RawRect) :
    (0 ≤ (ingestRect r).x ∧ (ingestRect r).x ≤ 100) ∧
    (0 ≤ (ingestRect r).y ∧ (ingestRect r).y ≤ 100) ∧
    1 ≤ (ingestRect r).w ∧ 1 ≤ (ingestRect r).h ∧
    (r.x.getD 0 ≤ 99 → (ingestRect r).x + (ingestRect r).w ≤ 100) ∧
    (r.y.getD 0 ≤ 99 → (ingestRect r).y + (ingestRect r).h ≤ 100) ∧
    ingestRect ⟨r.x, r.y, Option.none, Option.none⟩ =
      ingestRect ⟨r.x, r.y, Option.some 20, Option.some 20⟩ := by
  simp only [ingestRect]
  refine ⟨⟨le_max_left _ _, max_le (by norm_num) (min_le_left _ _)⟩,
    ⟨le_max_left _ _, max_le (by norm_num) (min_le_left _ _)⟩,
    le_max_left _ _, le_max_left _ _, ?_, ?_, rfl⟩
  · intro hx
    have h1 : min 100 (r.x.getD 0) = r.x.getD 0 := min_eq_right (by linarith)
    have h2 : max 0 (r.x.getD 0) ≤ 99 := max_le (by norm_num) hx
    have h3 : max 1 (min (100 - max 0 (r.x.getD 0)) (r.w.getD 20)) ≤
        100 - max 0 (r.x.getD 0) :=
      max_le (by linarith) (min_le_left _ _)
    rw [h1]
    linarith
  · intro hy
    have h1 : min 100 (r.y.getD 0) = r.y.getD 0 := min_eq_right (by linarith)
    have h2 : max 0 (r.y.getD 0) ≤ 99 := max_le (by norm_num) hy
    have h3 : max 1 (min (100 - max 0 (r.y.getD 0)) (r.h.getD 20)) ≤
        100 - max 0 (r.y.getD 0) :=
      max_le (by linarith) (min_le_left _ _)
    rw [h1]
    linarith

/-- Witness for (the amended) C1 at a rect that is out of range on the left
(`x = -50`) and has a missing width: both clamped sums stay within the image
bounds. -/
theorem ingestRect_bounds_witness :
    (ingestRect ⟨Option.some (-50), Option.some 30, Option.none, Option.some 200⟩).x +
        (ingestRect ⟨Option.some (-50), Option.some 30, Option.none, Option.some 200⟩).w
      ≤ 100 ∧
    (ingestRect ⟨Option.some (-50), Option.some 30, Option.none, Option.some 200⟩).y +
        (ingestRect ⟨Option.some (-50), Option.some 30, Option.none, Option.some 200⟩).h
      ≤ 100 :=
  ⟨(ingestRect_bounds ⟨Option.some (-50), Option.some 30, Option.none,
      Option.some 200⟩).2.2.2.2.1 (by norm_num),
   (ingestRect_bounds ⟨Option.some (-50), Option.some 30, Option.none,
      Option.some 200⟩).2.2.2.2.2.1 (by norm_num)⟩

/-- Claim C9: for an active element
`localElapsed = max(0, (p − startTime) × slideDurationSeconds)` and
`animProgress = clamp(localElapsed / element.duration, 0, 1)`, which saturates
at 1 and remains there; concretely for `fadeIn` with `startTime = 0.2`,
`duration = 1.0` s and slide duration 5 s (5000 ms), the effective opacity is 0
at `p = 0.1` (inactive) and at `p = 0.2` (`localElapsed = 0`), is 1 at
`p = 0.4`, and stays 1 for every `p > 0.4`. -/
theorem animProgress_clamp_saturation_fadeIn :
    (∀ (el : VisualElement) (p slideDurSec : ℚ),
      animProgressOf el p (slideDurSec * 1000) =
        min (max (max 0 ((p - el.startTime) * slideDurSec) / el.duration) 0) 1) ∧
    (∀ (el : VisualElement) (p q durationMs : ℚ), 0 ≤ durationMs →
      0 < el.duration → p ≤ q →
      animProgressOf el p durationMs = 1 → animProgressOf el q durationMs = 1) ∧
    (∀ imgH : ℚ,
      effAlpha (renderElement fadeInExample 0.1 5000 imgH) = 0 ∧
      effAlpha (renderElement fadeInExample 0.2 5000 imgH) = 0 ∧
      effAlpha (renderElement fadeInExample 0.4 5000 imgH) = 1) ∧
    ∀ (p imgH : ℚ), 0.4 < p →
      effAlpha (renderElement fadeInExample p 5000 imgH) = 1 := by
  refine ⟨?_, fun el p q D hD hd hpq h1 => animProgress_saturated hD hd hpq h1, ?_, ?_⟩
  · intro el p s
    simp only [animProgressOf, relativeTimeOf]
    rw [show (s * 1000 : ℚ) / 1000 = s from by ring]
  · intro imgH
    refine ⟨?_, ?_, ?_⟩ <;>
      norm_num [renderElement, effAlpha, fadeInExample, animProgressOf, relativeTimeOf]
  · intro p imgH hp
    have hst : ¬ p < fadeInExample.startTime := by
      simp only [fadeInExample]
      norm_num
      linarith
    rw [renderElement_fadeIn rfl hst]
    have h1 : 1 ≤ relativeTimeOf fadeInExample p 5000 / fadeInExample.duration := by
      simp only [relativeTimeOf, fadeInExample]
      rw [div_one, max_eq_right (by norm_num; linarith)]
      norm_num
      linarith
    rw [effAlpha]
    simpa using animProgress_of_one_le h1

/-- Witness for C9: the saturation and the tail of the worked example applied
at `p = 1/2 > 0.4`, and the clamp formula at slide duration 5 s. -/
theorem animProgress_clamp_saturation_fadeIn_witness :
    effAlpha (renderElement fadeInExample (1/2) 5000 100) = 1 ∧
    animProgressOf fadeInExample (1/2) (5 * 1000) =
      min (max (max 0 (((1:ℚ)/2 - fadeInExample.startTime) * 5) /
        fadeInExample.duration) 0) 1 :=
  ⟨animProgress_clamp_saturation_fadeIn.2.2.2 (1/2) 100 (by norm_num),
   animProgress_clamp_saturation_fadeIn.1 fadeInExample (1/2) 5⟩

/-- Counterexample to claim C4 as stated: at `animProgress = 1/2` the brightness
multiplier drawn by the compositor is `1 + 0.5·sin(π/2) = 1.5`, not the
`1 + 0.3·sin(π/2) = 1.3` of the claim (the source writes
`brightness((100 + sin(animProgress·π)·50)%)`). -/
theorem highlight_brightness_counterexample :
    ¬ (brightnessPctOf highlightExample (1/2) 1000 / 100 =
        1 + 0.3 * Real.sin
          ((animProgressOf highlightExample (1/2) 1000 : ℝ) * Real.pi)) := by
  have ha : animProgressOf highlightExample (1/2) 1000 = 1/2 := by
    norm_num [animProgressOf, relativeTimeOf, highlightExample]
  have hb : brightnessPctOf highlightExample (1/2) 1000 = 150 := by
    rw [brightnessPctOf, if_pos ⟨by norm_num [highlightExample], rfl⟩, ha]
    push_cast
    rw [show ((1:ℝ)/2) * Real.pi = Real.pi / 2 from by ring, Real.sin_pi_div_two]
    norm_num
  rw [hb, ha]
  push_cast
  rw [show ((1:ℝ)/2) * Real.pi = Real.pi / 2 from by ring, Real.sin_pi_div_two]
  norm_num

/-- Claim C4 (amended): an active highlight element is drawn at full opacity
(`globalAlpha` 1, identity transform) with brightness multiplier
`1 + 0.5·sin(animProgress·π)` — amplitude 0.5, not the claimed 0.3 — which
still peaks mid-animation and returns to multiplier 1.0 at `animProgress = 1`;
while inactive the overlay is skipped and the brightness filter is the
identity (100%), so the element region stays fully visible as part of the base
image drawn underneath. -/
theorem highlight_brightness :
    ∀ (el : VisualElement) (p durationMs imgH : ℚ),
      el.animation = AnimationType.highlight →
      (el.startTime ≤ p →
        brightnessPctOf el p durationMs / 100 =
          1 + 0.5 * Real.sin ((animProgressOf el p durationMs : ℝ) * Real.pi) ∧
        renderElement el p durationMs imgH = ⟨true, 1, 0, 1⟩) ∧
      (el.startTime ≤ p → animProgressOf el p durationMs = 1 →
        brightnessPctOf el p durationMs = 100) ∧
      (p < el.startTime →
        renderElement el p durationMs imgH = ⟨false, 1, 0, 1⟩ ∧
        brightnessPctOf el p durationMs = 100) := by
  intro el p durationMs imgH ha
  refine ⟨?_, ?_, ?_⟩
  · intro hp
    refine ⟨?_, renderElement_highlight ha (not_lt.mpr hp) durationMs imgH⟩
    rw [brightnessPctOf, if_pos ⟨hp, ha⟩]
    ring
  · intro hp h1
    rw [brightnessPctOf, if_pos ⟨hp, ha⟩, h1]
    push_cast
    simp [Real.sin_pi]
  · intro hp
    refine ⟨renderElement_inactive el hp durationMs imgH, ?_⟩
    rw [brightnessPctOf, if_neg]
    rintro ⟨h1, _⟩
    exact absurd h1 (not_le.mpr hp)

/-- Witness for (the amended) C4 at the concrete highlight element with
`animProgress = 1/2`, active branch. -/
theorem highlight_brightness_witness :
    brightnessPctOf highlightExample (1/2) 1000 / 100 =
      1 + 0.5 * Real.sin
        ((animProgressOf highlightExample (1/2) 1000 : ℝ) * Real.pi) ∧
    renderElement highlightExample (1/2) 1000 100 = ⟨true, 1, 0, 1⟩ :=
  (highlight_brightness highlightExample (1/2) 1000 100 rfl).1
    (by norm_num [highlightExample])

/-- Counterexample to claim C5 as stated: for a slideUp element whose rect
height is 50% of a 100-pixel-high image, at `animProgress = 0` the compositor's
vertical offset is `(1 − 0) × (100 × 0.05) = 5` — computed from the full
letterboxed image height — while the claim's formula
`(1 − animProgress) × elementHeight × 0.05 = (1 − 0) × 50 × 0.05 = 2.5`
disagrees. -/
theorem slideUp_offset_counterexample :
    (renderElement slideUpExample 0 1000 100).offsetY = 5 ∧
    ¬ ((renderElement slideUpExample 0 1000 100).offsetY =
        (1 - animProgressOf slideUpExample 0 1000) *
          (elementHeightOn slideUpExample 100 * 0.05)) := by
  constructor <;>
    norm_num [renderElement, slideUpExample, elementHeightOn, animProgressOf,
      relativeTimeOf]

/-- Claim C5 (amended): an active slideUp element is drawn with vertical offset
`(1 − animProgress) × (rendered full image height) × 0.05` — the source uses
the letterboxed base-image height `imgH`, not the element's own rendered
height — and opacity `animProgress`; while inactive it is not drawn (opacity
0). -/
theorem slideUp_offset_opacity :
    ∀ (el : VisualElement) (p durationMs imgH : ℚ),
      el.animation = AnimationType.slideUp →
      (el.startTime ≤ p →
        renderElement el p durationMs imgH =
          ⟨true, animProgressOf el p durationMs,
            (1 - animProgressOf el p durationMs) * (imgH * 0.05), 1⟩) ∧
      (p < el.startTime → effAlpha (renderElement el p durationMs imgH) = 0) := by
  intro el p durationMs imgH ha
  constructor
  · intro hp
    exact renderElement_slideUp ha (not_lt.mpr hp) durationMs imgH
  · intro hp
    rw [renderElement_inactive el hp durationMs imgH]
    rfl

/-- Witness for (the amended) C5 at the concrete slideUp element: the active
branch at `p = 0` and the inactive branch at `p = -1` (start time 0). -/
theorem slideUp_offset_opacity_witness :
    renderElement slideUpExample 0 1000 100 =
      ⟨true, animProgressOf slideUpExample 0 1000,
        (1 - animProgressOf slideUpExample 0 1000) * (100 * 0.05), 1⟩ ∧
    effAlpha (renderElement slideUpExample (-1) 1000 100) = 0 :=
  ⟨(slideUp_offset_opacity slideUpExample 0 1000 100 rfl).1
     (by norm_num [slideUpExample]),
   (slideUp_offset_opacity slideUpExample (-1) 1000 100 rfl).2
     (by norm_num [slideUpExample])⟩

/-- Claim C6: for every requested target width/height, a split aspect mode
forces a 1920×1080 canvas, allocates the top (for `top`) or bottom (for
`bottom`) 20% of the height to the subtitle band with the remaining 80% as the
image area, and fixes the subtitle vertical anchor at 10% / 90% of the canvas
height, ignoring the configured vertical position. -/
theorem split_layout_fixed :
    ∀ (mode : AspectMode) (targetW targetH : ℕ) (dims : Option (ℕ × ℕ)) (vp : ℚ),
      mode = AspectMode.top ∨ mode = AspectMode.bottom →
      exportCanvasDims mode targetW targetH dims = (1920, 1080) ∧
      (mode = AspectMode.top →
        imageArea mode 1920 1080 = ⟨0, 216, 1920, 864⟩ ∧
        subtitleTextY mode 1080 vp = 108) ∧
      (mode = AspectMode.bottom →
        imageArea mode 1920 1080 = ⟨0, 0, 1920, 864⟩ ∧
        subtitleTextY mode 1080 vp = 972) := by
  rintro mode tw th dims vp (rfl | rfl)
  · refine ⟨?_, ?_, fun h => AspectMode.noConfusion h⟩
    · rcases dims with _ | ⟨iw, ih⟩ <;> rfl
    · intro _
      constructor
      · norm_num [imageArea]
      · norm_num [subtitleTextY]
  · refine ⟨?_, fun h => AspectMode.noConfusion h, ?_⟩
    · rcases dims with _ | ⟨iw, ih⟩ <;> rfl
    · intro _
      constructor
      · norm_num [imageArea]
        decide
      · norm_num [subtitleTextY]
        decide

/-- Witness for C6: both split modes at the concrete requested size 640×480
with a configured vertical position of 55%. -/
theorem split_layout_fixed_witness :
    exportCanvasDims AspectMode.top 640 480 Option.none = (1920, 1080) ∧
    subtitleTextY AspectMode.top 1080 55 = 108 ∧
    exportCanvasDims AspectMode.bottom 640 480 Option.none = (1920, 1080) ∧
    subtitleTextY AspectMode.bottom 1080 55 = 972 :=
  ⟨(split_layout_fixed AspectMode.top 640 480 Option.none 55 (Or.inl rfl)).1,
   ((split_layout_fixed AspectMode.top 640 480 Option.none 55 (Or.inl rfl)).2.1 rfl).2,
   (split_layout_fixed AspectMode.bottom 640 480 Option.none 55 (Or.inr rfl)).1,
   ((split_layout_fixed AspectMode.bottom 640 480 Option.none 55 (Or.inr rfl)).2.2 rfl).2⟩

/-- Claim C7: the frame's subtitle text is the time-synced chunk selected by
the character-count mapping when the slide has narration audio and the script
yields a non-empty chunk list; otherwise (no narration, or narration with an
empty chunk list) it is the slide's stored static subtitle. -/
theorem subtitle_source_priority :
    ∀ (slide : Slide) (p : ℚ),
      (slide.hasAudio = true → splitTextIntoChunks slide.script ≠ [] →
        currentSubtitleFor slide p =
          (splitTextIntoChunks slide.script).getD
            (getChunkIndexByCharacterCount (splitTextIntoChunks slide.script) p) "") ∧
      ((slide.hasAudio = false ∨ splitTextIntoChunks slide.script = []) →
        currentSubtitleFor slide p = slide.subtitle) := by
  intro slide p
  constructor
  · intro hAudio hne
    have hscript : slide.script ≠ "" := by
      intro h
      apply hne
      rw [splitTextIntoChunks, if_pos h]
    simp only [currentSubtitleFor]
    rw [if_pos ⟨hAudio, hscript, List.length_pos.mpr hne⟩]
  · rintro (h | h)
    · simp only [currentSubtitleFor]
      rw [if_neg]
      rintro ⟨h1, -, -⟩
      rw [h] at h1
      cases h1
    · simp only [currentSubtitleFor]
      rw [if_neg]
      rintro ⟨-, -, h3⟩
      rw [h] at h3
      simp at h3

/-- Witness for C7 at a concrete slide whose script has two lines, once with
narration audio and once without. -/
theorem subtitle_source_priority_witness :
    currentSubtitleFor ⟨"line one\nline two", "static", true, []⟩ 0 =
      (splitTextIntoChunks "line one\nline two").getD
        (getChunkIndexByCharacterCount (splitTextIntoChunks "line one\nline two") 0) "" ∧
    currentSubtitleFor ⟨"line one\nline two", "static", false, []⟩ 0 = "static" :=
  ⟨(subtitle_source_priority ⟨"line one\nline two", "static", true, []⟩ 0).1 rfl
     (by decide),
   (subtitle_source_priority ⟨"line one\nline two", "static", false, []⟩ 0).2
     (Or.inl rfl)⟩

/-- Counterexample to claim C8 as stated: at the configured background opacity
0.2 the outline stroke is drawn (0.2 < 0.3) and the background rectangle is
drawn as well (0.2 > 0), so the two treatments are not mutually exclusive. -/
theorem subtitle_decoration_counterexample :
    outlineStrokeDrawn ⟨24, "Arial", "#ffffff", "#000000", 0.2, 80, "#ffff00"⟩ = true ∧
    backgroundRectDrawn ⟨24, "Arial", "#ffffff", "#000000", 0.2, 80, "#ffff00"⟩ = true := by
  constructor <;> simp [outlineStrokeDrawn, backgroundRectDrawn] <;> norm_num

/-- Claim C8 (amended): when the background opacity is below 0.3 the outline
stroke is drawn behind each run, and when it is at least 0.3 the background
rectangle is drawn with no outline stroke; but the rectangle is drawn whenever
the opacity is positive, so for opacity in (0, 0.3) both treatments are drawn
together — they are not mutually exclusive at the 0.3 threshold. -/
theorem subtitle_decoration_rules :
    ∀ style : SubtitleStyle,
      (style.backgroundOpacity < 0.3 → outlineStrokeDrawn style = true) ∧
      (0.3 ≤ style.backgroundOpacity →
        outlineStrokeDrawn style = false ∧ backgroundRectDrawn style = true) ∧
      (backgroundRectDrawn style = true ↔ 0 < style.backgroundOpacity) := by
  intro style
  refine ⟨?_, ?_, ?_⟩
  · intro h
    simpa [outlineStrokeDrawn] using h
  · intro h
    constructor
    · simp only [outlineStrokeDrawn, decide_eq_false_iff_not, not_lt]
      exact h
    · simp only [backgroundRectDrawn, decide_eq_true_eq]
      linarith
  · simp [backgroundRectDrawn]

/-- Witness for (the amended) C8 at the concrete opacities 0.1 (outline) and
0.5 (background rectangle, no outline). -/
theorem subtitle_decoration_rules_witness :
    outlineStrokeDrawn ⟨24, "Arial", "#ffffff", "#000000", 0.1, 80, "#ffff00"⟩ = true ∧
    outlineStrokeDrawn ⟨24, "Arial", "#ffffff", "#000000", 0.5, 80, "#ffff00"⟩ = false ∧
    backgroundRectDrawn ⟨24, "Arial", "#ffffff", "#000000", 0.5, 80, "#ffff00"⟩ = true :=
  ⟨(subtitle_decoration_rules ⟨24, "Arial", "#ffffff", "#000000", 0.1, 80, "#ffff00"⟩).1
     (by norm_num),
   ((subtitle_decoration_rules ⟨24, "Arial", "#ffffff", "#000000", 0.5, 80, "#ffff00"⟩).2.1
     (by norm_num)).1,
   ((subtitle_decoration_rules ⟨24, "Arial", "#ffffff", "#000000", 0.5, 80, "#ffff00"⟩).2.1
     (by norm_num)).2⟩

/-- Claim C10: for every input text that, after removing all `*` characters and
trimming whitespace, is empty, contains the substring "분석 중" or starts with
"오류", `generateSpeech` returns null (`Option.none`) without issuing any
request to the AI service. -/
theorem generateSpeech_guard :
    ∀ text : String,
      (cleanSpeechText text = "" ∨
        containsSeq "분석 중".toList (cleanSpeechText text).toList = true ∨
        startsWithSeq "오류".toList (cleanSpeechText text).toList = true) →
      generateSpeech text = Option.none := by
  intro text h
  simp only [generateSpeech]
  rw [if_pos h]

/-- Witness for C10 at three concrete inputs: text that cleans to empty, text
containing "분석 중", and text starting with "오류" once the `*` markers are
stripped. -/
theorem generateSpeech_guard_witness :
    generateSpeech "***  " = Option.none ∧
    generateSpeech " 이미지 분석 중..." = Option.none ∧
    generateSpeech "*오류*: 이미지 없음" = Option.none :=
  ⟨generateSpeech_guard "***  " (Or.inl (by decide)),
   generateSpeech_guard " 이미지 분석 중..." (Or.inr (Or.inl (by decide))),
   generateSpeech_guard "*오류*: 이미지 없음" (Or.inr (Or.inr (by decide)))⟩

end SlideEditor
